import Mathlib

/-!
Shallow embedding of the gaze-stream analyzer of the DyslexiaDetection
repository and of the eye-tracking web client (`eye_tracking.js`,
`backend/static/index.html`).

The analyzer core (baseline tracker, fixation/saccade segmenter, metrics
aggregator, indicator scorer, session state machine) ships in this
repository only as documentation (`eye_tracking/README.md`) and as the
JavaScript clients that call it; its Python implementation is not among
the source files.  Definitions for those components are therefore
modelled from the specification, as marked in their doc comments.
Definitions for the web client are translated directly from the
JavaScript source.

Numbers are modelled as exact rationals; timestamps are milliseconds.
-/

namespace DyslexiaDetection

/-- Modelled from the spec: the six named indicator components of an
`IndicatorScore`, each expected to be normalized to `[0,1]`
(spec §3, §4.5; `eye_tracking/README.md` "Dyslexia Indicators"). -/
structure IndicatorScore where
  backward_saccades : ℚ
  long_fixations : ℚ
  irregular_saccades : ℚ
  gaze_stability : ℚ
  blink_rate : ℚ
  pupil_variability : ℚ
  deriving DecidableEq, Repr

/-- Modelled from the spec: the weighted linear combination
`probability = 100 × Σ (weight_i × normalized_i)` with the fixed weights
25, 20, 20, 15, 10, 10 percent (spec §4.5; README weights list). -/
def dyslexia_probability (s : IndicatorScore) : ℚ :=
  100 * (25 / 100 * s.backward_saccades
       + 20 / 100 * s.long_fixations
       + 20 / 100 * s.irregular_saccades
       + 15 / 100 * s.gaze_stability
       + 10 / 100 * s.blink_rate
       + 10 / 100 * s.pupil_variability)

/-- Severity buckets for the aggregate probability (spec §3;
README "Severity Classification"). -/
inductive Severity where
  | mild
  | moderate
  | severe
  deriving DecidableEq, Repr

/-- Modelled from the spec: severity is derived purely from the
probability with strict boundaries, `< 40` mild, `[40,70]` moderate,
`> 70` severe (spec §3 invariants; README "Severity Classification"). -/
def severity (p : ℚ) : Severity :=
  if p < 40 then .mild
  else if p ≤ 70 then .moderate
  else .severe

/-- C1: with all six indicators in `[0,1]` and the fixed weights summing
to 100 percent, the combined probability lies in `[0,100]`. -/
theorem dyslexia_probability_in_range (s : IndicatorScore)
    (h1 : 0 ≤ s.backward_saccades ∧ s.backward_saccades ≤ 1)
    (h2 : 0 ≤ s.long_fixations ∧ s.long_fixations ≤ 1)
    (h3 : 0 ≤ s.irregular_saccades ∧ s.irregular_saccades ≤ 1)
    (h4 : 0 ≤ s.gaze_stability ∧ s.gaze_stability ≤ 1)
    (h5 : 0 ≤ s.blink_rate ∧ s.blink_rate ≤ 1)
    (h6 : 0 ≤ s.pupil_variability ∧ s.pupil_variability ≤ 1) :
    0 ≤ dyslexia_probability s ∧ dyslexia_probability s ≤ 100 := by
  obtain ⟨a0, a1⟩ := h1
  obtain ⟨b0, b1⟩ := h2
  obtain ⟨c0, c1⟩ := h3
  obtain ⟨d0, d1⟩ := h4
  obtain ⟨e0, e1⟩ := h5
  obtain ⟨f0, f1⟩ := h6
  unfold dyslexia_probability
  constructor <;> nlinarith

/-- Witness for C1 at a concrete indicator combination. -/
theorem dyslexia_probability_in_range_witness :
    (0 ≤ (1 : ℚ) ∧ (1 : ℚ) ≤ 1) ∧ (0 ≤ (0 : ℚ) ∧ (0 : ℚ) ≤ 1) ∧
    (0 ≤ (1 / 2 : ℚ) ∧ (1 / 2 : ℚ) ≤ 1) ∧
    (0 ≤ dyslexia_probability ⟨1, 0, 1 / 2, 0, 1, 1 / 2⟩ ∧
     dyslexia_probability ⟨1, 0, 1 / 2, 0, 1, 1 / 2⟩ ≤ 100) :=
  ⟨⟨by norm_num, by norm_num⟩, ⟨by norm_num, by norm_num⟩,
   ⟨by norm_num, by norm_num⟩,
   dyslexia_probability_in_range ⟨1, 0, 1 / 2, 0, 1, 1 / 2⟩
     ⟨by norm_num, by norm_num⟩ ⟨by norm_num, by norm_num⟩
     ⟨by norm_num, by norm_num⟩ ⟨by norm_num, by norm_num⟩
     ⟨by norm_num, by norm_num⟩ ⟨by norm_num, by norm_num⟩⟩

/-- C2: severity is a pure function of the probability with strict
boundaries (`< 40` mild, `[40,70]` moderate, `> 70` severe), and in
particular 39.9 maps to mild, 40.0 and 70.0 to moderate, and 70.1 to
severe. -/
theorem severity_boundaries :
    (∀ p : ℚ, severity p = .mild ↔ p < 40) ∧
    (∀ p : ℚ, severity p = .moderate ↔ 40 ≤ p ∧ p ≤ 70) ∧
    (∀ p : ℚ, severity p = .severe ↔ 70 < p) ∧
    severity (399 / 10) = .mild ∧
    severity 40 = .moderate ∧
    severity 70 = .moderate ∧
    severity (701 / 10) = .severe := by
  refine ⟨fun p => ?_, fun p => ?_, fun p => ?_, ?_, ?_, ?_, ?_⟩
  · unfold severity
    split <;> rename_i h
    · simp [h]
    · split <;> simp_all
  · unfold severity
    split <;> rename_i h
    · constructor
      · intro hc
        exact absurd hc (by simp)
      · intro hc
        linarith [hc.1]
    · split <;> rename_i h2
      · simp [not_lt.mp h, h2]
      · constructor
        · intro hc
          exact absurd hc (by simp)
        · intro hc
          exact absurd hc.2 h2
  · unfold severity
    split <;> rename_i h
    · constructor
      · intro hc
        exact absurd hc (by simp)
      · intro hc
        linarith
    · split <;> rename_i h2
      · constructor
        · intro hc
          exact absurd hc (by simp)
        · intro hc
          linarith
      · simp [not_le.mp h2]
  · unfold severity
    norm_num
  · unfold severity
    norm_num
  · unfold severity
    norm_num
  · unfold severity
    norm_num

/-- Modelled from the spec: a canonical gaze sample with a timestamp (ms)
and an average gaze position (spec §3 `GazeSample`, reduced to the fields
the segmenter consumes). -/
structure GazeSample where
  t : ℚ
  x : ℚ
  y : ℚ
  deriving DecidableEq, Repr

/-- Squared distance between the positions of two samples, used as the
position-variance measure of the segmenter's stability test. -/
def dist2 (a b : GazeSample) : ℚ :=
  (a.x - b.x) ^ 2 + (a.y - b.y) ^ 2

/-- Modelled from the spec: minimum fixation duration of 200 ms
(spec §3 invariants; README "Minimum fixation duration: 200ms"). -/
def minFixationDuration : ℚ := 200

/-- Modelled from the spec: an emitted Fixation record (spec §3),
reduced to the temporal fields the claims constrain. -/
structure Fixation where
  start_time : ℚ
  end_time : ℚ
  duration : ℚ
  deriving DecidableEq, Repr

/-- Modelled from the spec: an emitted Saccade record with its signed
horizontal delta as `direction` and the regression flag `is_backward`
(spec §3 `Saccade`). -/
structure Saccade where
  start_time : ℚ
  end_time : ℚ
  direction : ℚ
  is_backward : Bool
  deriving DecidableEq, Repr

/-- Fixation constructor used at every emission point: duration is the
span from the first to the last sample of the closed fixation. -/
def mkFixation (start last : GazeSample) : Fixation :=
  ⟨start.t, last.t, last.t - start.t⟩

/-- Saccade constructor used at every emission point: the direction is
the signed horizontal delta, and `is_backward` is set exactly when that
delta is negative, i.e. opposite to the expected left-to-right reading
progression (spec §4.3). -/
def mkSaccade (start finish : GazeSample) : Saccade :=
  ⟨start.t, finish.t, finish.x - start.x,
   if finish.x - start.x < 0 then true else false⟩

/-- Modelled from the spec: the segmenter's state machine phases
`SEEKING_FIXATION`, `IN_FIXATION`, `IN_SACCADE` (spec §4.3).  The
fixation phase carries the first and the most recent sample of the
candidate fixation; the saccade phase carries the sample the saccade
started from. -/
inductive SegPhase where
  | seekingFixation
  | inFixation (start last : GazeSample)
  | inSaccade (start : GazeSample)
  deriving DecidableEq, Repr

/-- Accumulated segmenter output: current phase plus emitted records. -/
structure SegAcc where
  phase : SegPhase
  fixations : List Fixation
  saccades : List Saccade
  deriving DecidableEq, Repr

/-- Modelled from the spec: one segmenter step (spec §4.3).  In
`SEEKING_FIXATION` a sample opens a candidate fixation.  In
`IN_FIXATION` a sample within the variance threshold `th` of the
fixation start extends it; one beyond the threshold closes the
fixation — emitting it only if its duration reached 200 ms, else
discarding it as noise — and starts a saccade at the last fixation
sample.  In `IN_SACCADE` the next sample closes the saccade, emits it,
and opens a new candidate fixation. -/
def stepSeg (th : ℚ) (acc : SegAcc) (s : GazeSample) : SegAcc :=
  match acc.phase with
  | .seekingFixation => { acc with phase := .inFixation s s }
  | .inFixation start last =>
      if dist2 s start ≤ th then
        { acc with phase := .inFixation start s }
      else if minFixationDuration ≤ last.t - start.t then
        { phase := .inSaccade last,
          fixations := acc.fixations ++ [mkFixation start last],
          saccades := acc.saccades }
      else
        { acc with phase := .inSaccade last }
  | .inSaccade start =>
      { phase := .inFixation s s,
        fixations := acc.fixations,
        saccades := acc.saccades ++ [mkSaccade start s] }

/-- Modelled from the spec: at end of stream an open candidate fixation
is closed, emitted only if its duration reached 200 ms. -/
def finishSeg (acc : SegAcc) : SegAcc :=
  match acc.phase with
  | .inFixation start last =>
      if minFixationDuration ≤ last.t - start.t then
        { phase := .seekingFixation,
          fixations := acc.fixations ++ [mkFixation start last],
          saccades := acc.saccades }
      else
        { acc with phase := .seekingFixation }
  | _ => { acc with phase := .seekingFixation }

/-- Initial segmenter state. -/
def segInit : SegAcc := ⟨.seekingFixation, [], []⟩

/-- Run the segmenter over a sample stream. -/
def segment (th : ℚ) (samples : List GazeSample) : SegAcc :=
  finishSeg (samples.foldl (stepSeg th) segInit)

/-- While every incoming sample stays within the variance threshold of
the fixation start, the segmenter remains in the same fixation, tracking
the most recent sample, and emits nothing. -/
theorem foldl_stepSeg_inFixation (th : ℚ) (s0 : GazeSample)
    (fx : List Fixation) (sc : List Saccade) (rest : List GazeSample) :
    ∀ last : GazeSample, (∀ s ∈ rest, dist2 s s0 ≤ th) →
      rest.foldl (stepSeg th) ⟨.inFixation s0 last, fx, sc⟩ =
        ⟨.inFixation s0 (rest.getLastD last), fx, sc⟩ := by
  induction rest with
  | nil =>
      intro last _
      rfl
  | cons s rest ih =>
      intro last h
      have hs : dist2 s s0 ≤ th := h s (by simp)
      have hstep : stepSeg th ⟨.inFixation s0 last, fx, sc⟩ s =
          ⟨.inFixation s0 s, fx, sc⟩ := by
        simp [stepSeg, hs]
      simp only [List.foldl_cons, hstep, List.getLastD_cons]
      exact ih s (fun a ha => h a (by simp [ha]))

/-- C3: a sample sequence whose position variance stays within the
threshold over its whole span yields exactly one Fixation whose duration
is the span when the span reaches 200 ms, and no Fixation at all when
the span is shorter (the candidate is discarded as noise); no Saccade is
emitted either way. -/
theorem fixation_span_rule (th : ℚ) (s0 : GazeSample)
    (rest : List GazeSample)
    (hvar : ∀ s ∈ s0 :: rest, dist2 s s0 ≤ th)
    (hmono : List.Chain' (fun a b : GazeSample => a.t < b.t) (s0 :: rest)) :
    (minFixationDuration ≤ (rest.getLastD s0).t - s0.t →
      (segment th (s0 :: rest)).fixations =
        [mkFixation s0 (rest.getLastD s0)]) ∧
    ((rest.getLastD s0).t - s0.t < minFixationDuration →
      (segment th (s0 :: rest)).fixations = []) ∧
    (segment th (s0 :: rest)).saccades = [] := by
  have hfold : (s0 :: rest).foldl (stepSeg th) segInit =
      ⟨.inFixation s0 (rest.getLastD s0), [], []⟩ := by
    have h0 : stepSeg th segInit s0 = ⟨.inFixation s0 s0, [], []⟩ := rfl
    simp only [List.foldl_cons, h0]
    exact foldl_stepSeg_inFixation th s0 [] [] rest s0
      (fun a ha => hvar a (by simp [ha]))
  unfold segment
  rw [hfold]
  unfold finishSeg
  dsimp
  split
  · refine ⟨fun _ => rfl, fun hlt => absurd (by assumption) (not_le.mpr hlt), rfl⟩
  · refine ⟨fun hle => absurd hle (by assumption), fun _ => rfl, rfl⟩

/-- Witness for C3 on a concrete stream: three co-located samples
spanning 250 ms produce exactly one 250 ms Fixation, and the 200 ms
cutoff test is exercised by the theorem's two branches. -/
theorem fixation_span_rule_witness :
    (∀ s ∈ [(⟨0, 0, 0⟩ : GazeSample), ⟨100, 0, 0⟩, ⟨250, 0, 0⟩],
       dist2 s ⟨0, 0, 0⟩ ≤ 1) ∧
    List.Chain' (fun a b : GazeSample => a.t < b.t)
      [(⟨0, 0, 0⟩ : GazeSample), ⟨100, 0, 0⟩, ⟨250, 0, 0⟩] ∧
    (segment 1 [(⟨0, 0, 0⟩ : GazeSample), ⟨100, 0, 0⟩, ⟨250, 0, 0⟩]).fixations =
      [⟨0, 250, 250⟩] := by
  have h1 : ∀ s ∈ [(⟨0, 0, 0⟩ : GazeSample), ⟨100, 0, 0⟩, ⟨250, 0, 0⟩],
      dist2 s ⟨0, 0, 0⟩ ≤ 1 := by
    intro s hs
    simp only [List.mem_cons, List.mem_singleton] at hs
    rcases hs with rfl | rfl | rfl | h
    · norm_num [dist2]
    · norm_num [dist2]
    · norm_num [dist2]
    · cases h
  have h2 : List.Chain' (fun a b : GazeSample => a.t < b.t)
      [(⟨0, 0, 0⟩ : GazeSample), ⟨100, 0, 0⟩, ⟨250, 0, 0⟩] := by
    refine List.chain'_cons.mpr ⟨by norm_num, List.chain'_cons.mpr ⟨by norm_num, ?_⟩⟩
    exact List.chain'_singleton _
  refine ⟨h1, h2, ?_⟩
  have := (fixation_span_rule 1 ⟨0, 0, 0⟩ [⟨100, 0, 0⟩, ⟨250, 0, 0⟩] h1 h2).1
    (by norm_num [minFixationDuration])
  simpa [mkFixation] using this

/-- The saccade constructor sets the regression flag exactly on a
negative horizontal delta. -/
theorem mkSaccade_flag (start finish : GazeSample) :
    ((mkSaccade start finish).is_backward = true ↔
      (mkSaccade start finish).direction < 0) := by
  unfold mkSaccade
  dsimp
  split <;> simp_all

/-- One segmenter step preserves the regression-flag invariant over the
emitted saccades. -/
theorem stepSeg_saccades_flag (th : ℚ) (acc : SegAcc) (s : GazeSample)
    (h : ∀ sac ∈ acc.saccades, (sac.is_backward = true ↔ sac.direction < 0)) :
    ∀ sac ∈ (stepSeg th acc s).saccades,
      (sac.is_backward = true ↔ sac.direction < 0) := by
  obtain ⟨ph, fx, sc⟩ := acc
  cases ph with
  | seekingFixation =>
      exact h
  | inFixation start last =>
      intro sac hs
      unfold stepSeg at hs
      dsimp at hs
      split at hs
      · exact h sac hs
      · split at hs
        · exact h sac hs
        · exact h sac hs
  | inSaccade start =>
      intro sac hs
      unfold stepSeg at hs
      dsimp at hs
      rcases List.mem_append.mp hs with h1 | h2
      · exact h sac h1
      · rw [List.mem_singleton.mp h2]
        exact mkSaccade_flag start s

/-- The regression-flag invariant is preserved along the whole stream. -/
theorem foldl_stepSeg_saccades_flag (th : ℚ) (samples : List GazeSample) :
    ∀ acc : SegAcc,
      (∀ sac ∈ acc.saccades, (sac.is_backward = true ↔ sac.direction < 0)) →
      ∀ sac ∈ (samples.foldl (stepSeg th) acc).saccades,
        (sac.is_backward = true ↔ sac.direction < 0) := by
  induction samples with
  | nil =>
      intro acc h
      exact h
  | cons s rest ih =>
      intro acc h
      exact ih (stepSeg th acc s) (stepSeg_saccades_flag th acc s h)

/-- Closing the stream does not change the emitted saccades. -/
theorem finishSeg_saccades (acc : SegAcc) :
    (finishSeg acc).saccades = acc.saccades := by
  obtain ⟨ph, fx, sc⟩ := acc
  cases ph with
  | seekingFixation => rfl
  | inFixation start last =>
      unfold finishSeg
      dsimp
      split <;> rfl
  | inSaccade start => rfl

/-- C5: every Saccade the segmenter emits carries
`is_backward = true` exactly when its signed horizontal direction is
negative, i.e. opposite to the left-to-right forward-reading
progression; in particular a forward saccade is never flagged. -/
theorem saccade_backward_flag (th : ℚ) (samples : List GazeSample)
    (sac : Saccade) (hmem : sac ∈ (segment th samples).saccades) :
    sac.is_backward = true ↔ sac.direction < 0 := by
  unfold segment at hmem
  rw [finishSeg_saccades] at hmem
  refine foldl_stepSeg_saccades_flag th samples segInit ?_ sac hmem
  intro s hs
  exact absurd hs (List.not_mem_nil s)

/-- Witness for C5 on a concrete stream containing a forward saccade:
the emitted record is not flagged as backward. -/
theorem saccade_backward_flag_witness :
    (⟨250, 350, 5, false⟩ : Saccade) ∈
      (segment 1 [(⟨0, 0, 0⟩ : GazeSample), ⟨250, 0, 0⟩, ⟨300, 10, 0⟩,
        ⟨350, 5, 0⟩]).saccades ∧
    ((false = true) ↔ ((5 : ℚ) < 0)) := by
  have hmem : (⟨250, 350, 5, false⟩ : Saccade) ∈
      (segment 1 [(⟨0, 0, 0⟩ : GazeSample), ⟨250, 0, 0⟩, ⟨300, 10, 0⟩,
        ⟨350, 5, 0⟩]).saccades := by
    norm_num [segment, stepSeg, finishSeg, segInit, dist2, mkSaccade,
      mkFixation, minFixationDuration]
  exact ⟨hmem,
    saccade_backward_flag 1 [⟨0, 0, 0⟩, ⟨250, 0, 0⟩, ⟨300, 10, 0⟩, ⟨350, 5, 0⟩]
      ⟨250, 350, 5, false⟩ hmem⟩

/-- Modelled from the spec: the baseline rolling-window capacity of
1000 samples (spec §3 `BaselineStats`; README "Rolling window of 1000
samples for baseline calculations"). -/
def baselineWindowLimit : ℕ := 1000

/-- Modelled from the spec: one Baseline Tracker update appends the
sample to the session's rolling window and evicts the oldest entry once
the size exceeds 1000 (FIFO, spec §4.2). -/
def updateWindow (w : List GazeSample) (s : GazeSample) : List GazeSample :=
  if baselineWindowLimit < (w ++ [s]).length then (w ++ [s]).drop 1
  else w ++ [s]

/-- The rolling window produced by a whole sequence of updates, starting
from an empty session window. -/
def runWindow (samples : List GazeSample) : List GazeSample :=
  samples.foldl updateWindow []

/-- One update never grows the window beyond the capacity. -/
theorem updateWindow_length_le (w : List GazeSample) (s : GazeSample)
    (h : w.length ≤ baselineWindowLimit) :
    (updateWindow w s).length ≤ baselineWindowLimit := by
  unfold updateWindow
  split <;> rename_i hlen <;>
    simp only [List.length_drop, List.length_append, List.length_singleton]
      at hlen ⊢ <;> omega

/-- The window bound is an invariant of arbitrary update sequences. -/
theorem foldl_updateWindow_length_le (samples : List GazeSample) :
    ∀ w : List GazeSample, w.length ≤ baselineWindowLimit →
      (samples.foldl updateWindow w).length ≤ baselineWindowLimit := by
  induction samples with
  | nil =>
      intro w h
      exact h
  | cons s rest ih =>
      intro w h
      exact ih _ (updateWindow_length_le w s h)

/-- Below capacity, the window is exactly the sample sequence. -/
theorem runWindow_id (samples : List GazeSample)
    (h : samples.length ≤ baselineWindowLimit) :
    runWindow samples = samples := by
  induction samples using List.reverseRecOn with
  | nil => rfl
  | append_singleton l a ih =>
      have hl : l.length ≤ baselineWindowLimit := by
        rw [List.length_append, List.length_singleton] at h
        omega
      show (l ++ [a]).foldl updateWindow [] = l ++ [a]
      rw [List.foldl_append, List.foldl_cons, List.foldl_nil]
      show updateWindow (runWindow l) a = l ++ [a]
      rw [ih hl]
      unfold updateWindow
      rw [if_neg]
      simp only [List.length_append, List.length_singleton] at h ⊢
      omega

/-- At capacity, an update evicts exactly the oldest entry. -/
theorem updateWindow_evicts (w : List GazeSample) (s : GazeSample)
    (h : w.length = baselineWindowLimit) :
    updateWindow w s = w.tail ++ [s] := by
  cases w with
  | nil => simp [baselineWindowLimit] at h
  | cons x xs =>
      unfold updateWindow
      rw [if_pos]
      · simp
      · simp only [List.length_append, List.length_cons,
          List.length_singleton]
        simp only [List.length_cons] at h
        omega

/-- The 1001st update drops the first sample ever seen. -/
theorem runWindow_evicts_oldest (samples : List GazeSample)
    (h : samples.length = baselineWindowLimit + 1) :
    runWindow samples = samples.tail := by
  induction samples using List.reverseRecOn with
  | nil => simp [baselineWindowLimit] at h
  | append_singleton l a ih =>
      have hl : l.length = baselineWindowLimit := by
        rw [List.length_append, List.length_singleton] at h
        omega
      show (l ++ [a]).foldl updateWindow [] = (l ++ [a]).tail
      rw [List.foldl_append, List.foldl_cons, List.foldl_nil]
      show updateWindow (runWindow l) a = (l ++ [a]).tail
      rw [runWindow_id l (le_of_eq hl), updateWindow_evicts l a hl]
      cases l with
      | nil => simp [baselineWindowLimit] at hl
      | cons x xs => rfl

/-- C4: for every update sequence the rolling window holds at most 1000
samples; at capacity the update that would exceed 1000 evicts the oldest
sample first (FIFO), so after the 1001st update the very first sample is
gone. -/
theorem baseline_window_bounded :
    (∀ samples : List GazeSample,
       (runWindow samples).length ≤ baselineWindowLimit) ∧
    (∀ (w : List GazeSample) (s : GazeSample),
       w.length = baselineWindowLimit → updateWindow w s = w.tail ++ [s]) ∧
    (∀ samples : List GazeSample,
       samples.length = baselineWindowLimit + 1 →
       runWindow samples = samples.tail) :=
  ⟨fun samples => foldl_updateWindow_length_le samples [] (by simp),
   updateWindow_evicts, runWindow_evicts_oldest⟩

/-- Witness for C4: a full window of 1000 samples evicts its head on the
next update, and the bound holds on a concrete run. -/
theorem baseline_window_bounded_witness :
    (List.replicate baselineWindowLimit (⟨0, 0, 0⟩ : GazeSample)).length =
      baselineWindowLimit ∧
    updateWindow (List.replicate baselineWindowLimit (⟨0, 0, 0⟩ : GazeSample))
        ⟨1, 2, 3⟩ =
      (List.replicate baselineWindowLimit (⟨0, 0, 0⟩ : GazeSample)).tail ++
        [⟨1, 2, 3⟩] ∧
    (runWindow [(⟨0, 0, 0⟩ : GazeSample)]).length ≤ baselineWindowLimit :=
  ⟨by simp,
   baseline_window_bounded.2.1 _ _ (by simp),
   baseline_window_bounded.1 [⟨0, 0, 0⟩]⟩

/-- Modelled from the spec: per-session ingestion state of the GazeSample
Normalizer — the last accepted timestamp, the accepted stream, and the
dropped-frame counter (spec §4.1, §7 `DegenerateTimestamp`). -/
structure IngestState where
  lastT : Option ℚ
  accepted : List GazeSample
  droppedFrames : ℕ
  deriving DecidableEq, Repr

/-- Fresh ingestion state for a new session. -/
def ingestInit : IngestState := ⟨none, [], 0⟩

/-- Modelled from the spec: a sample whose timestamp does not strictly
increase over the previously accepted one is dropped silently and
counted as a dropped frame; otherwise it is accepted (spec §4.1). -/
def ingestSample (st : IngestState) (s : GazeSample) : IngestState :=
  match st.lastT with
  | none => ⟨some s.t, st.accepted ++ [s], st.droppedFrames⟩
  | some t =>
      if s.t ≤ t then ⟨some t, st.accepted, st.droppedFrames + 1⟩
      else ⟨some s.t, st.accepted ++ [s], st.droppedFrames⟩

/-- Ingest a whole raw sample stream. -/
def ingestStream (samples : List GazeSample) : IngestState :=
  samples.foldl ingestSample ingestInit

/-- The analyzer pipeline for one session: segmentation runs over the
accepted samples only (spec §2 data flow). -/
def pipeline (th : ℚ) (samples : List GazeSample) : SegAcc :=
  segment th (ingestStream samples).accepted

/-- Ingestion invariant: accepted timestamps are strictly increasing,
all bounded by the last accepted timestamp. -/
def IngestInv (st : IngestState) : Prop :=
  List.Chain' (fun a b : GazeSample => a.t < b.t) st.accepted ∧
  (∀ a ∈ st.accepted, ∀ t : ℚ, st.lastT = some t → a.t ≤ t) ∧
  (st.lastT = none → st.accepted = [])

/-- One ingestion step preserves the ingestion invariant. -/
theorem ingestSample_invariant (st : IngestState) (s : GazeSample)
    (h : IngestInv st) : IngestInv (ingestSample st s) := by
  obtain ⟨lt, acc, dr⟩ := st
  obtain ⟨hchain, hle, hnone⟩ := h
  cases lt with
  | none =>
      have hacc : acc = [] := hnone rfl
      subst hacc
      refine ⟨?_, ?_, ?_⟩
      · show List.Chain' (fun a b : GazeSample => a.t < b.t) ([] ++ [s])
        simp
      · intro a ha t ht
        simp only [ingestSample, List.nil_append, List.mem_singleton] at ha
        simp only [ingestSample, Option.some.injEq] at ht
        subst ha
        exact le_of_eq ht
      · intro hcon
        simp only [ingestSample] at hcon
        exact absurd hcon (by simp)
  | some t0 =>
      by_cases hts : s.t ≤ t0
      · have hstep : ingestSample ⟨some t0, acc, dr⟩ s = ⟨some t0, acc, dr + 1⟩ := by
          simp [ingestSample, hts]
        rw [hstep]
        refine ⟨hchain, ?_, ?_⟩
        · intro a ha t ht
          exact hle a ha t ht
        · intro hcon
          cases hcon
      · have hstep : ingestSample ⟨some t0, acc, dr⟩ s =
            ⟨some s.t, acc ++ [s], dr⟩ := by
          simp [ingestSample, hts]
        rw [hstep]
        have hboundall : ∀ a ∈ acc, a.t ≤ t0 := fun a ha => hle a ha t0 rfl
        refine ⟨?_, ?_, ?_⟩
        · refine List.chain'_append.mpr ⟨hchain, List.chain'_singleton s, ?_⟩
          intro x hx y hy
          simp only [List.head?_cons, Option.mem_def, Option.some.injEq] at hy
          subst hy
          have hxmem : x ∈ acc := by
            obtain ⟨hne, rfl⟩ := List.mem_getLast?_eq_getLast hx
            exact List.getLast_mem hne
          exact lt_of_le_of_lt (hboundall x hxmem) (not_le.mp hts)
        · intro a ha t ht
          simp only [Option.some.injEq] at ht
          subst ht
          rcases List.mem_append.mp ha with h1 | h2
          · exact le_of_lt (lt_of_le_of_lt (hboundall a h1) (not_le.mp hts))
          · rw [List.mem_singleton.mp h2]
        · intro hcon
          cases hcon

/-- The ingestion invariant is preserved along any raw stream. -/
theorem foldl_ingestSample_invariant (samples : List GazeSample) :
    ∀ st : IngestState, IngestInv st →
      IngestInv (samples.foldl ingestSample st) := by
  induction samples with
  | nil =>
      intro st h
      exact h
  | cons s rest ih =>
      intro st h
      exact ih _ (ingestSample_invariant st s h)

/-- The ingestion invariant holds after ingesting any raw stream. -/
theorem ingestStream_invariant (samples : List GazeSample) :
    IngestInv (ingestStream samples) := by
  refine foldl_ingestSample_invariant samples ingestInit
    ⟨List.chain'_nil, ?_, fun _ => rfl⟩
  intro a ha t ht
  exact absurd ha (List.not_mem_nil a)


/-- Every sample the segmenter phase holds was observed no later than
the given time bound. -/
def phaseTimeLE : SegPhase → ℚ → Prop
  | .seekingFixation, _ => True
  | .inFixation start last, bound => start.t ≤ bound ∧ last.t ≤ bound
  | .inSaccade start, bound => start.t ≤ bound

/-- One segmenter step on a strictly later sample keeps the phase bound
and emits only saccades with a strictly positive time delta. -/
theorem stepSeg_time_invariant (th : ℚ) (acc : SegAcc) (s : GazeSample)
    (bound : ℚ) (h1 : phaseTimeLE acc.phase bound)
    (h2 : ∀ sac ∈ acc.saccades, sac.start_time < sac.end_time)
    (hBs : bound < s.t) :
    phaseTimeLE (stepSeg th acc s).phase s.t ∧
    (∀ sac ∈ (stepSeg th acc s).saccades,
       sac.start_time < sac.end_time) := by
  obtain ⟨ph, fx, sc⟩ := acc
  cases ph with
  | seekingFixation =>
      exact ⟨⟨le_refl _, le_refl _⟩, h2⟩
  | inFixation start last =>
      simp only [phaseTimeLE] at h1
      obtain ⟨hst, hlt⟩ := h1
      unfold stepSeg
      dsimp
      split
      · exact ⟨⟨le_trans hst (le_of_lt hBs), le_refl _⟩, h2⟩
      · split
        · exact ⟨le_trans hlt (le_of_lt hBs), h2⟩
        · exact ⟨le_trans hlt (le_of_lt hBs), h2⟩
  | inSaccade start =>
      simp only [phaseTimeLE] at h1
      unfold stepSeg
      dsimp
      refine ⟨⟨le_refl _, le_refl _⟩, ?_⟩
      intro sac hs
      rcases List.mem_append.mp hs with hh | hh
      · exact h2 sac hh
      · rw [List.mem_singleton.mp hh]
        show (mkSaccade start s).start_time < (mkSaccade start s).end_time
        unfold mkSaccade
        dsimp
        exact lt_of_le_of_lt h1 hBs

/-- The positive-time-delta property of emitted saccades is preserved
along a strictly time-increasing sample stream. -/
theorem foldl_stepSeg_saccade_times (th : ℚ) (samples : List GazeSample) :
    ∀ (acc : SegAcc) (bound : ℚ), phaseTimeLE acc.phase bound →
      (∀ sac ∈ acc.saccades, sac.start_time < sac.end_time) →
      List.Chain' (fun a b : ℚ => a < b)
        (bound :: samples.map (fun s => s.t)) →
      ∀ sac ∈ (samples.foldl (stepSeg th) acc).saccades,
        sac.start_time < sac.end_time := by
  induction samples with
  | nil =>
      intro acc bound h1 h2 _
      exact h2
  | cons s rest ih =>
      intro acc bound h1 h2 hchain
      simp only [List.map_cons] at hchain
      have hBs : bound < s.t := (List.chain'_cons.mp hchain).1
      have hrest : List.Chain' (fun a b : ℚ => a < b)
          (s.t :: rest.map (fun s => s.t)) := (List.chain'_cons.mp hchain).2
      obtain ⟨h1s, h2s⟩ := stepSeg_time_invariant th acc s bound h1 h2 hBs
      exact ih (stepSeg th acc s) s.t h1s h2s hrest

/-- Over any strictly time-increasing stream the segmenter emits only
saccades whose end time strictly exceeds their start time. -/
theorem segment_saccade_times (th : ℚ) (samples : List GazeSample)
    (h : List.Chain' (fun a b : GazeSample => a.t < b.t) samples) :
    ∀ sac ∈ (segment th samples).saccades,
      sac.start_time < sac.end_time := by
  intro sac hmem
  unfold segment at hmem
  rw [finishSeg_saccades] at hmem
  cases samples with
  | nil => exact absurd hmem (List.not_mem_nil sac)
  | cons a rest =>
      refine foldl_stepSeg_saccade_times th (a :: rest) segInit (a.t - 1)
        trivial ?_ ?_ sac hmem
      · intro x hx
        exact absurd hx (List.not_mem_nil x)
      · simp only [List.map_cons]
        refine List.chain'_cons.mpr ⟨by linarith, ?_⟩
        rw [← List.map_cons]
        exact (List.chain'_map _).mpr h

/-- C9: a sample whose timestamp does not strictly increase over the
previously accepted one is dropped silently — the ingestion function is
total, only the dropped-frame counter changes — and the accepted stream
has strictly increasing timestamps, so every saccade the pipeline emits
spans a strictly positive time delta and no division by a zero time
delta (infinite velocity) can occur. -/
theorem degenerate_timestamp_handling :
    (∀ (st : IngestState) (s : GazeSample) (t : ℚ),
       st.lastT = some t → s.t ≤ t →
       ingestSample st s = ⟨some t, st.accepted, st.droppedFrames + 1⟩) ∧
    (∀ samples : List GazeSample,
       List.Chain' (fun a b : GazeSample => a.t < b.t)
         (ingestStream samples).accepted) ∧
    (∀ (th : ℚ) (samples : List GazeSample),
       ∀ sac ∈ (pipeline th samples).saccades,
         sac.start_time < sac.end_time) := by
  refine ⟨?_, ?_, ?_⟩
  · intro st s t hlast hle
    unfold ingestSample
    rw [hlast]
    simp [hle]
  · intro samples
    exact (ingestStream_invariant samples).1
  · intro th samples sac hmem
    exact segment_saccade_times th (ingestStream samples).accepted
      (ingestStream_invariant samples).1 sac hmem

/-- Witness for C9: a concrete state with a stale-timestamp sample drops
it silently, and on a concrete stream the pipeline's saccades span
positive time. -/
theorem degenerate_timestamp_handling_witness :
    ((⟨some 250, [⟨0, 0, 0⟩], 0⟩ : IngestState).lastT = some 250 ∧
     (⟨250, 7, 7⟩ : GazeSample).t ≤ 250 ∧
     ingestSample ⟨some 250, [⟨0, 0, 0⟩], 0⟩ ⟨250, 7, 7⟩ =
       ⟨some 250, [⟨0, 0, 0⟩], 1⟩) ∧
    List.Chain' (fun a b : GazeSample => a.t < b.t)
      (ingestStream [⟨0, 0, 0⟩, ⟨0, 1, 1⟩, ⟨100, 0, 0⟩]).accepted ∧
    ((⟨250, 350, 5, false⟩ : Saccade) ∈
       (pipeline 1 [(⟨0, 0, 0⟩ : GazeSample), ⟨250, 0, 0⟩, ⟨250, 9, 9⟩,
         ⟨300, 10, 0⟩, ⟨350, 5, 0⟩]).saccades →
     (250 : ℚ) < 350) := by
  refine ⟨⟨rfl, le_refl _, ?_⟩, ?_, ?_⟩
  · exact degenerate_timestamp_handling.1 ⟨some 250, [⟨0, 0, 0⟩], 0⟩
      ⟨250, 7, 7⟩ 250 rfl (le_refl _)
  · exact degenerate_timestamp_handling.2.1 [⟨0, 0, 0⟩, ⟨0, 1, 1⟩, ⟨100, 0, 0⟩]
  · intro hmem
    exact degenerate_timestamp_handling.2.2 1
      [⟨0, 0, 0⟩, ⟨250, 0, 0⟩, ⟨250, 9, 9⟩, ⟨300, 10, 0⟩, ⟨350, 5, 0⟩]
      ⟨250, 350, 5, false⟩ hmem

/-- Modelled from the spec: the session lifecycle states
`idle → calibrating → ready → reading_test → completed` (spec §4.6). -/
inductive SessionState where
  | idle
  | calibrating
  | ready
  | readingTest
  | completed
  deriving DecidableEq, Repr

/-- Modelled from the spec: the error kinds of the analyzer subsystem
(spec §7). -/
inductive ErrorKind where
  | invalidTransition
  | insufficientBaseline
  | malformedSample
  | sessionNotFound
  | degenerateTimestamp
  deriving DecidableEq, Repr

/-- Modelled from the spec: a session record owning its lifecycle state,
remaining calibration points, baseline window and reading-test text
(spec §3 `Session`). -/
structure Session where
  state : SessionState
  calibrationPoints : ℕ
  baseline : List GazeSample
  readingTestText : Option String
  deriving DecidableEq, Repr

/-- Modelled from the spec: `reading_test_start` is valid only from
`ready` and requires passage text; an invalid attempt reports
`InvalidTransition` to the caller and leaves the session unchanged
(spec §4.6, §7). -/
def readingTestStart (s : Session) (text : Option String) :
    Session × Option ErrorKind :=
  match s.state, text with
  | .ready, some txt =>
      ({ s with state := .readingTest, readingTestText := some txt }, none)
  | .ready, none => (s, some .invalidTransition)
  | _, _ => (s, some .invalidTransition)

/-- Modelled from the spec: the session lifecycle commands the claims
exercise (spec §6), dispatched per session. -/
inductive Command where
  | calibrationStart
  | calibrationNextPoint
  | readingTestStartCmd (text : Option String)
  | endSessionCmd
  deriving DecidableEq, Repr

/-- Modelled from the spec: apply one lifecycle command to a session
(spec §4.6): `calibration_start` is valid from `idle`/`ready`;
completing all calibration points transitions to `ready`;
`reading_test_start` behaves as `readingTestStart`; `end_session` is
valid from every state and returns the session to `idle`, releasing its
baseline. -/
def applyCommand (s : Session) : Command → Session × Option ErrorKind
  | .calibrationStart =>
      match s.state with
      | .idle => ({ s with state := .calibrating }, none)
      | .ready => ({ s with state := .calibrating }, none)
      | _ => (s, some .invalidTransition)
  | .calibrationNextPoint =>
      match s.state with
      | .calibrating =>
          if s.calibrationPoints ≤ 1 then
            ({ s with state := .ready, calibrationPoints := 0 }, none)
          else
            ({ s with calibrationPoints := s.calibrationPoints - 1 }, none)
      | _ => (s, some .invalidTransition)
  | .readingTestStartCmd text => readingTestStart s text
  | .endSessionCmd => ({ s with state := .idle, baseline := [] }, none)

/-- Modelled from the spec: the per-process session table, keyed by
session id (spec §3 `Session`, §5). -/
abbrev SessionTable := List (ℕ × Session)

/-- Modelled from the spec: dispatch a lifecycle command to the session
owning the given id; a command referencing an unknown or expired session
id is rejected with `SessionNotFound` (spec §7). -/
def dispatch (tbl : SessionTable) (id : ℕ) (cmd : Command) :
    SessionTable × Option ErrorKind :=
  match tbl.lookup id with
  | none => (tbl, some .sessionNotFound)
  | some s =>
      match applyCommand s cmd with
      | (_, some e) => (tbl, some e)
      | (s2, none) =>
          (tbl.map (fun p => if p.1 = id then (p.1, s2) else p), none)

/-- Modelled from the spec: `end_session` is reachable from any state,
returns the session to `idle`, and destroys the session record,
releasing its baseline memory (spec §3, §4.6, §8). -/
def endSession (tbl : SessionTable) (id : ℕ) :
    SessionTable × Except ErrorKind SessionState :=
  match tbl.lookup id with
  | none => (tbl, .error .sessionNotFound)
  | some _ => (tbl.filter (fun p => p.1 != id), .ok .idle)

/-- C7: `reading_test_start` succeeds exactly when the session is in
state `ready` and passage text is supplied; issued from any other state
it returns an `InvalidTransition` error to the caller — never silently
ignored — and every erroneous call leaves the session unchanged. -/
theorem reading_test_start_guard (s : Session) (text : Option String) :
    ((readingTestStart s text).2 = none ↔
       s.state = .ready ∧ text.isSome = true) ∧
    (s.state ≠ .ready →
       readingTestStart s text = (s, some .invalidTransition)) ∧
    ((readingTestStart s text).2.isSome = true →
       (readingTestStart s text).1 = s) := by
  obtain ⟨st, pts, bl, txt0⟩ := s
  cases st <;> cases text <;>
    simp [readingTestStart]

/-- A concrete passage text used by the witnesses. -/
def passageText : String := "The quick brown fox jumps over the lazy dog."

/-- Witness for C7: from `calibrating` the command errors with
`InvalidTransition` and the session is unchanged. -/
theorem reading_test_start_guard_witness :
    ((⟨.calibrating, 3, [], none⟩ : Session).state ≠ .ready) ∧
    readingTestStart ⟨.calibrating, 3, [], none⟩ (some passageText) =
      (⟨.calibrating, 3, [], none⟩, some .invalidTransition) :=
  ⟨by decide,
   (reading_test_start_guard ⟨.calibrating, 3, [], none⟩
     (some passageText)).2.1 (by decide)⟩

/-- Removing a key from the table makes its lookup fail. -/
theorem lookup_filter_ne (tbl : SessionTable) (id : ℕ) :
    (tbl.filter (fun p => p.1 != id)).lookup id = none := by
  induction tbl with
  | nil => rfl
  | cons p rest ih =>
      by_cases h : p.1 = id
      · simp [List.filter_cons, h, ih]
      · simp only [List.filter_cons]
        rw [if_pos (by simp [h])]
        simp only [List.lookup]
        have hbeq : (id == p.1) = false := by
          simp [Ne.symm h]
        rw [hbeq]
        exact ih

/-- C8: `end_session` succeeds from every lifecycle state, transitions
the session to `idle`, and destroys the record, releasing its baseline;
afterwards every lifecycle command referencing the ended id is rejected
with `SessionNotFound` and leaves the table untouched. -/
theorem end_session_releases (tbl : SessionTable) (id : ℕ) (s : Session)
    (hmem : tbl.lookup id = some s) :
    (endSession tbl id).2 = .ok SessionState.idle ∧
    (endSession tbl id).1.lookup id = none ∧
    (∀ cmd : Command, dispatch (endSession tbl id).1 id cmd =
       ((endSession tbl id).1, some ErrorKind.sessionNotFound)) := by
  unfold endSession
  rw [hmem]
  refine ⟨rfl, lookup_filter_ne tbl id, ?_⟩
  intro cmd
  unfold dispatch
  rw [lookup_filter_ne tbl id]

/-- A concrete mid-test session used by the C8 witness. -/
def demoSession : Session := ⟨.readingTest, 0, [⟨0, 0, 0⟩], some passageText⟩

/-- A concrete one-session table used by the C8 witness. -/
def demoTable : SessionTable := [(1, demoSession)]

/-- Witness for C8 on a concrete table: ending session 1 from the
`reading_test` state succeeds, frees the record, and a subsequent
command on id 1 yields `SessionNotFound`. -/
theorem end_session_releases_witness :
    demoTable.lookup 1 = some demoSession ∧
    ((endSession demoTable 1).2 = .ok SessionState.idle ∧
     (endSession demoTable 1).1.lookup 1 = none ∧
     (∀ cmd : Command, dispatch (endSession demoTable 1).1 1 cmd =
        ((endSession demoTable 1).1, some ErrorKind.sessionNotFound))) :=
  ⟨rfl, end_session_releases demoTable 1 demoSession rfl⟩

/-- A value of the client's metrics event: a number or a nested object
of named boolean indicator flags. -/
inductive MetricValue where
  | num (n : ℚ)
  | flags (kvs : List (String × Bool))
  deriving DecidableEq, Repr

/-- The initial metrics event the eye-tracking client passes to
`updateMetrics` when the WebSocket opens
(`EyeTrackingClient.connectWebSocket`, `eye_tracking.js` lines
111-123), field for field. -/
def initialMetrics : List (String × MetricValue) :=
  [("reading_speed", .num 0),
   ("fixations", .num 0),
   ("regressions", .num 0),
   ("dyslexia_probability", .num 0),
   ("indicators", .flags
     [("high_backward_saccades", false),
      ("long_fixations", false),
      ("irregular_saccades", false),
      ("high_blink_rate", false),
      ("poor_gaze_stability", false)])]

/-- The key of the indicators object. -/
def indicatorsKey : String := "indicators"

/-- The severity field name the claim expects. -/
def severityKey : String := "severity"

/-- Field names of the client's metrics event. -/
def metricsFieldNames : List String := initialMetrics.map Prod.fst

/-- Indicator component names of the client's metrics event. -/
def indicatorNames : List String :=
  match initialMetrics.lookup indicatorsKey with
  | some (.flags kvs) => kvs.map Prod.fst
  | _ => []

/-- The six indicator component names the claim prescribes, stated from
the spec's words (spec §3 `IndicatorScore`) for comparison with the
client code. -/
def specIndicatorNames : List String :=
  ["backward_saccades", "long_fixations", "irregular_saccades",
   "gaze_stability", "blink_rate", "pupil_variability"]

/-- C6 counterexample: the client's metrics event has five indicator
components, not six; it carries none of the spec's names
`backward_saccades`, `gaze_stability`, `blink_rate`,
`pupil_variability`; and it has no `severity` field. -/
theorem metrics_event_fields_counterexample :
    indicatorNames.length = 5 ∧
    ¬ indicatorNames.length = 6 ∧
    severityKey ∉ metricsFieldNames ∧
    ¬ (∀ k ∈ specIndicatorNames, k ∈ indicatorNames) := by
  refine ⟨rfl, by decide, by decide, ?_⟩
  intro hall
  have hpv : ("pupil_variability" : String) ∈ specIndicatorNames := by
    decide
  exact absurd (hall _ hpv) (by decide)

/-- C6 amended: the metrics event the client initializes contains the
fields `reading_speed`, `fixations`, `regressions`,
`dyslexia_probability` and an `indicators` collection with exactly five
named components — `high_backward_saccades`, `long_fixations`,
`irregular_saccades`, `high_blink_rate`, `poor_gaze_stability` — and no
`severity` field. -/
theorem metrics_event_fields_amended :
    metricsFieldNames =
      ["reading_speed", "fixations", "regressions",
       "dyslexia_probability", "indicators"] ∧
    indicatorNames =
      ["high_backward_saccades", "long_fixations", "irregular_saccades",
       "high_blink_rate", "poor_gaze_stability"] ∧
    indicatorNames.length = 5 ∧
    severityKey ∉ metricsFieldNames :=
  ⟨rfl, rfl, rfl, by decide⟩

/-- `this.maxReconnectAttempts = 5` in `EyeTrackingClient`'s
constructor (`eye_tracking.js`). -/
def maxReconnectAttempts : ℕ := 5

/-- `this.reconnectDelay = 1000` (ms) in `EyeTrackingClient`'s
constructor (`eye_tracking.js`). -/
def initialReconnectDelay : ℕ := 1000

/-- The client fields the reconnection logic reads and writes:
`reconnectAttempts`, `reconnectDelay`, and whether `sessionId` is set. -/
structure ClientState where
  reconnectAttempts : ℕ
  reconnectDelay : ℕ
  sessionActive : Bool
  deriving DecidableEq, Repr

/-- Client state right after the constructor, and after the `onopen`
reset of the reconnection counters. -/
def freshClient : ClientState := ⟨0, initialReconnectDelay, true⟩

/-- Observable outcome of one `attemptReconnect` call: either the
session is stopped, or a retry is scheduled after the given delay. -/
inductive ReconnectAction where
  | stopSession
  | scheduleRetry (delayMs : ℕ)
  deriving DecidableEq, Repr

/-- `attemptReconnect` from `eye_tracking.js`: at the attempt limit, or
with no active session, it stops the session (`stopSession` resets the
counters and clears the session id); otherwise it increments the attempt
counter, schedules `connectWebSocket` after the current delay, and
doubles the delay (exponential backoff). -/
def attemptReconnect (c : ClientState) : ReconnectAction × ClientState :=
  if maxReconnectAttempts ≤ c.reconnectAttempts ∨ c.sessionActive = false then
    (.stopSession, ⟨0, initialReconnectDelay, false⟩)
  else
    (.scheduleRetry c.reconnectDelay,
     ⟨c.reconnectAttempts + 1, c.reconnectDelay * 2, c.sessionActive⟩)

/-- Client state after `n` consecutive failed reconnection attempts
starting from a fresh client. -/
def afterAttempts : ℕ → ClientState
  | 0 => freshClient
  | n + 1 => (attemptReconnect (afterAttempts n)).2

/-- C10: the reconnection counter never exceeds
`maxReconnectAttempts = 5`; the delay before the k-th consecutive
attempt is `1000 · 2^(k-1)` ms (doubling from 1000 ms); and once the
limit is reached, or no session is active, the client stops the session
instead of retrying — in particular the sixth consecutive attempt from a
fresh client stops the session. -/
theorem reconnect_bounded_backoff :
    (∀ c : ClientState, c.reconnectAttempts ≤ maxReconnectAttempts →
       ((attemptReconnect c).2).reconnectAttempts ≤ maxReconnectAttempts) ∧
    (∀ n : ℕ,
       (afterAttempts n).reconnectAttempts ≤ maxReconnectAttempts) ∧
    (∀ k : ℕ, k < maxReconnectAttempts →
       (attemptReconnect (afterAttempts k)).1 =
         .scheduleRetry (initialReconnectDelay * 2 ^ k)) ∧
    (∀ c : ClientState,
       maxReconnectAttempts ≤ c.reconnectAttempts ∨ c.sessionActive = false →
       (attemptReconnect c).1 = .stopSession) ∧
    (attemptReconnect (afterAttempts maxReconnectAttempts)).1 =
      .stopSession := by
  have hstep : ∀ c : ClientState,
      c.reconnectAttempts ≤ maxReconnectAttempts →
      ((attemptReconnect c).2).reconnectAttempts ≤ maxReconnectAttempts := by
    intro c hc
    unfold attemptReconnect
    split <;> rename_i hcond
    · simp [maxReconnectAttempts]
    · dsimp
      rcases not_or.mp hcond with ⟨hlt, _⟩
      omega
  refine ⟨hstep, ?_, by decide, ?_, by decide⟩
  · intro n
    induction n with
    | zero => simp [afterAttempts, freshClient, maxReconnectAttempts]
    | succ n ih => exact hstep (afterAttempts n) ih
  · intro c hc
    unfold attemptReconnect
    rw [if_pos hc]

/-- Witness for C10: the first attempt from a fresh client waits
1000 ms, the sixth stops the session, and the bound holds after one
step. -/
theorem reconnect_bounded_backoff_witness :
    (freshClient.reconnectAttempts ≤ maxReconnectAttempts ∧
     ((attemptReconnect freshClient).2).reconnectAttempts ≤
       maxReconnectAttempts) ∧
    ((0 : ℕ) < maxReconnectAttempts ∧
     (attemptReconnect (afterAttempts 0)).1 =
       .scheduleRetry (initialReconnectDelay * 2 ^ 0)) ∧
    (maxReconnectAttempts ≤
       (⟨5, 32000, true⟩ : ClientState).reconnectAttempts ∧
     (attemptReconnect ⟨5, 32000, true⟩).1 = .stopSession) :=
  ⟨⟨by decide, reconnect_bounded_backoff.1 freshClient (by decide)⟩,
   ⟨by decide, reconnect_bounded_backoff.2.2.1 0 (by decide)⟩,
   ⟨by decide,
    reconnect_bounded_backoff.2.2.2.1 ⟨5, 32000, true⟩ (Or.inl (by decide))⟩⟩

end DyslexiaDetection
